import Mathlib

/-!
Verification of the transcript-to-chapter alignment engine of the
YouTube chapter generator.

Modelling conventions for the shallow embedding of the Python sources:
* Python strings are modelled as `List Char` (`PyStr`).
* Python floats are modelled exactly over `ℚ`; the sources only ever add,
  subtract, multiply, divide, floor-divide and compare, so the rational
  model matches the intended real-number semantics (IEEE rounding noise is
  out of scope).
* A Python function that can raise an uncaught exception is modelled with
  an `Option` result, `none` standing for the raised exception.
* Unbounded `while` loops and non-structural recursion are modelled with an
  explicit fuel argument; the fuel supplied at the wrapper is proved (or is
  easily seen) to be sufficient, so the fuel-exhausted branch is dead code.
-/

namespace ChapterGen

abbrev PyStr := List Char

/-- Whitespace recognised by Python's `str.strip` and `int` (space, tab,
newline, carriage return, vertical tab, form feed). -/
def isPySpace (c : Char) : Bool :=
  c == ' ' || c == '\t' || c == '\n' || c == '\r' ||
  c == Char.ofNat 11 || c == Char.ofNat 12

/-- Python `str.strip()`: drop whitespace from both ends. -/
def pyStrip (s : PyStr) : PyStr :=
  ((s.dropWhile isPySpace).reverse.dropWhile isPySpace).reverse

/-- Decimal digits of a natural number, most significant first
(fuelled version; `fuel > n` is always sufficient). -/
def natDigitsGo : ℕ → ℕ → List Char
  | 0, _ => []
  | fuel + 1, n =>
    if n < 10 then [Nat.digitChar n]
    else natDigitsGo fuel (n / 10) ++ [Nat.digitChar (n % 10)]

/-- Decimal rendering of a natural number, as produced by Python `str`. -/
def natDigits (n : ℕ) : List Char := natDigitsGo (n + 1) n

/-- Value of a decimal digit character. -/
def digitVal (c : Char) : ℕ := c.toNat - 48

/-- Value of a string of decimal digits (leading zeros allowed). -/
def digitsVal (l : List Char) : ℕ := l.foldl (fun a c => 10 * a + digitVal c) 0

/-- Python `str` of an integer. -/
def intRepr (z : ℤ) : PyStr :=
  if z < 0 then '-' :: natDigits z.natAbs else natDigits z.toNat

/-- Python format `f"{z:02}"`: pad with `'0'` to width two. -/
def pad2 (z : ℤ) : PyStr :=
  let r := intRepr z
  if r.length < 2 then '0' :: r else r

/-- Python float modulo `a % b` (floored remainder). -/
def pyFloorMod (a b : ℚ) : ℚ := a - b * ⌊a / b⌋

/-- Embedding of `format_time(seconds)` (identical in all four scripts):
`h = int(seconds // 3600); m = int((seconds % 3600) // 60);
s = int(seconds % 60); return f"{h:02}:{m:02}:{s:02}"`.
`seconds // 3600` is already the floor, and the `%` results are
non-negative, so every `int` conversion is a floor. -/
def format_time (seconds : ℚ) : PyStr :=
  let h : ℤ := ⌊seconds / 3600⌋
  let m : ℤ := ⌊pyFloorMod seconds 3600 / 60⌋
  let s : ℤ := ⌊pyFloorMod seconds 60⌋
  pad2 h ++ ':' :: pad2 m ++ ':' :: pad2 s

/-- Python `str.split(sep)` for a single-character separator. -/
def splitOnChar (sep : Char) : PyStr → List PyStr
  | [] => [[]]
  | c :: rest =>
    match splitOnChar sep rest with
    | [] => [[]]
    | h :: t => if c == sep then [] :: h :: t else (c :: h) :: t

/-- Adjacent underscores, as rejected inside Python integer literals. -/
def noDoubleUnderscore : List Char → Bool
  | [] => true
  | [_] => true
  | a :: b :: rest => !(a == '_' && b == '_') && noDoubleUnderscore (b :: rest)

/-- Digit body accepted by Python `int` after sign removal: non-empty,
digits possibly separated by single underscores, starting and ending
with a digit. -/
def okDigitsBody (l : List Char) : Bool :=
  !l.isEmpty &&
  l.all (fun c => c.isDigit || c == '_') &&
  (match l.head? with | some c => c.isDigit | none => false) &&
  (match l.getLast? with | some c => c.isDigit | none => false) &&
  noDoubleUnderscore l

/-- Sign application and digit-body validation of Python `int`. -/
def pyIntBody (neg : Bool) (body : PyStr) : Option ℤ :=
  if okDigitsBody body then
    some ((if neg then -1 else 1) * (digitsVal (body.filter Char.isDigit) : ℤ))
  else none

/-- Python `int` on an already-stripped string: optional single sign
followed by the digit body. -/
def pyIntCore (t : PyStr) : Option ℤ :=
  if t.head? == some '+' then pyIntBody false t.tail
  else if t.head? == some '-' then pyIntBody true t.tail
  else pyIntBody false t

/-- Python `int(s)` on a string: strip whitespace, optional sign, decimal
digits (with underscore separators); `none` models the raised
`ValueError`. -/
def pyInt? (s : PyStr) : Option ℤ :=
  pyIntCore (pyStrip s)

/-- Embedding of the timestamp parse inside `snap_timestamps_to_transcript`:
`try: h, m, s = map(int, ts.split(':')); t = h*3600 + m*60 + s; except: t = 0`.
Any failure (wrong number of fields or a non-integer field) yields 0. -/
def parse_to_t (ts : PyStr) : ℤ :=
  match splitOnChar ':' ts with
  | [a, b, c] =>
    match pyInt? a, pyInt? b, pyInt? c with
    | some h, some m, some s => h * 3600 + m * 60 + s
    | _, _, _ => 0
  | _ => 0

/-- Character class of the title regex `[A-Za-z0-9'\-]` (ASCII letters,
digits, apostrophe, hyphen). -/
def isWordChar (c : Char) : Bool :=
  c.isAlpha || c.isDigit || c == Char.ofNat 39 || c == '-'

/-- A character allowed in a normalized title: word character or space. -/
def wordOrSpace (c : Char) : Bool := isWordChar c || c == ' '

/-- Maximal runs of word characters, as found by `re.findall(r"[A-Za-z0-9'\-]+", s)`.
`cur` is the current run, reversed. -/
def tokensGo : List Char → List Char → List (List Char)
  | cur, [] => if cur.isEmpty then [] else [cur.reverse]
  | cur, c :: rest =>
    if isWordChar c then tokensGo (c :: cur) rest
    else if cur.isEmpty then tokensGo [] rest
    else cur.reverse :: tokensGo [] rest

/-- The word tokens of a string (the `re.findall` above). -/
def findTokens (s : PyStr) : List (List Char) := tokensGo [] s

/-- Python `' '.join(tokens)`. -/
def joinSpace : List (List Char) → List Char
  | [] => []
  | [t] => t
  | t :: t' :: rest => t ++ ' ' :: joinSpace (t' :: rest)

/-- No two adjacent spaces. -/
def noDoubleSpace : List Char → Bool
  | [] => true
  | [_] => true
  | a :: b :: rest => !(a == ' ' && b == ' ') && noDoubleSpace (b :: rest)

/-- Embedding of the snapper's title normalization:
`' '.join(re.findall(r"[A-Za-z0-9'\-]+", ch.get('title', 'Chapter')))[:120].strip()`.
The argument is the candidate's optional `title` field; `none` models a
missing key, for which `dict.get` substitutes `'Chapter'`. -/
def normalize_title (title : Option PyStr) : PyStr :=
  pyStrip ((joinSpace (findTokens (title.getD (("Chapter".data))))).take 120)

/-- A transcript segment: start time in seconds plus text. -/
structure Segment where
  start : ℚ
  text : PyStr
deriving DecidableEq

/-- A chapter candidate as decoded from the inference JSON; either field may
be missing from the object. -/
structure Candidate where
  timestamp : Option PyStr
  title : Option PyStr
deriving DecidableEq

/-- The loop of Python `bisect.bisect_right(a, x)`:
`while lo < hi: mid = (lo+hi)//2; if x < a[mid]: hi = mid; else: lo = mid+1`.
The fuel bounds the iteration count; `hi - lo < fuel` always suffices. -/
def bisectGo (a : List ℚ) (x : ℚ) : ℕ → ℕ → ℕ → ℕ
  | 0, lo, _ => lo
  | fuel + 1, lo, hi =>
    if lo < hi then
      if x < a.getD ((lo + hi) / 2) 0 then bisectGo a x fuel lo ((lo + hi) / 2)
      else bisectGo a x fuel ((lo + hi) / 2 + 1) hi
    else lo

/-- Python `bisect.bisect_right(a, x)` over the whole list. -/
def bisect_right (a : List ℚ) (x : ℚ) : ℕ := bisectGo a x (a.length + 1) 0 a.length

/-- The snap of one candidate time in `snap_timestamps_to_transcript`:
`idx = bisect.bisect_right(starts, t) - 1; if idx < 0: idx = 0;
snap = starts[idx]`.  `none` models the `IndexError` raised by
`starts[0]` when `starts` is empty. -/
def snapTime (starts : List ℚ) (t : ℤ) : Option ℚ :=
  let r := bisect_right starts ((t : ℚ))
  let idx : ℤ := (r : ℤ) - 1
  let idx2 : ℤ := if idx < 0 then 0 else idx
  starts[idx2.toNat]?

/-- The alignment loop of `snap_timestamps_to_transcript`: parse each
candidate's timestamp (`ch.get('timestamp', '00:00:00')`), snap it, and
pair it with the normalized title; the first raised `IndexError` aborts. -/
def snapAll (starts : List ℚ) : List Candidate → Option (List (ℚ × PyStr))
  | [] => some []
  | ch :: rest =>
    match snapTime starts (parse_to_t (ch.timestamp.getD (("00:00:00".data)))) with
    | none => none
    | some s => (snapAll starts rest).map (fun l => (s, normalize_title ch.title) :: l)

/-- The dedup loop of `snap_timestamps_to_transcript`: first candidate to
claim a snapped time wins, later ones are dropped (`seen` set). -/
def dedupFirst (seen : List ℚ) : List (ℚ × PyStr) → List (ℚ × PyStr)
  | [] => []
  | p :: rest =>
    if p.1 ∈ seen then dedupFirst seen rest
    else p :: dedupFirst (p.1 :: seen) rest

/-- Comparison key of `unique.sort(key=lambda x: x[0])`. -/
def byTime (p q : ℚ × PyStr) : Prop := p.1 ≤ q.1

instance : DecidableRel byTime := fun p q => inferInstanceAs (Decidable (p.1 ≤ q.1))

instance : IsTotal (ℚ × PyStr) byTime := ⟨fun a b => le_total a.1 b.1⟩

instance : IsTrans (ℚ × PyStr) byTime := ⟨fun _ _ _ h₁ h₂ => le_trans h₁ h₂⟩

/-- Embedding of `snap_timestamps_to_transcript(chapters, transcript)` from
`generate_youtube_chapters.py`: snap every candidate onto a transcript
segment start, deduplicate by snapped time (first wins), sort ascending by
time.  Python's stable `list.sort` is modelled by insertion sort; the
deduplicated list has pairwise-distinct keys, so every `≤`-sort returns the
same list and stability is immaterial. -/
def snap_timestamps_to_transcript (chapters : List Candidate) (transcript : List Segment) :
    Option (List (ℚ × PyStr)) :=
  let starts := transcript.map Segment.start
  (snapAll starts chapters).map (fun aligned => List.insertionSort byTime (dedupFirst [] aligned))

/-- The chapter-production step of `main` in `generate_youtube_chapters.py`
(lines 389-432), as a function of the inference outcome: `chapters = generate_ai_chapters(...)`
is `none` on any inference failure; `if chapters:` then snaps and keeps the
first `count`, `else` prints "Failed to generate chapters." and produces no
chapter set (modelled as `none`). -/
def gyc_result (ai : Option (List Candidate)) (transcript : List Segment) (count : ℕ) :
    Option (List (ℚ × PyStr)) :=
  match ai with
  | none => none
  | some cs =>
    if cs.isEmpty then none
    else (snap_timestamps_to_transcript cs transcript).map (fun l => l.take count)

/-- Python `min(iterable, key=f)` on a non-empty list: keep the first
element whose key is minimal. -/
def pyMinGo (f : Segment → ℚ) (best : Segment) : List Segment → Segment
  | [] => best
  | y :: ys => pyMinGo f (if f y < f best then y else best) ys

/-- The fallback branch of `main` in `src/main_enhanced.py` (lines 263-278):
time-based chapters.  `target = min(100, max(10, int(duration / 180)))`;
chapter `i` (for `i` in `range(1, target)`) is the transcript segment whose
start is nearest `i * duration / target`, rendered as
`f"{timestamp} {text[:100]}"` after `text.strip()`.  `none` models the
`min()` of an empty transcript raising; the caller guards non-emptiness. -/
def enhanced_fallback_chapters (transcript : List Segment) (duration : ℚ) :
    Option (List PyStr) :=
  match transcript with
  | [] => none
  | seg :: rest =>
    let target := min 100 (max 10 (⌊duration / 180⌋.toNat))
    let chapter_length := duration / ((target : ℚ))
    some ((("00:00:00 Introduction".data)) ::
      (List.range' 1 (target - 1)).map (fun (i : ℕ) =>
        let chapter_time := ((i : ℚ)) * chapter_length
        let closest := pyMinGo (fun sg => |sg.start - chapter_time|) seg rest
        format_time closest.start ++ ' ' :: (pyStrip closest.text).take 100))

/-- The chapter-production step of `main` in `src/main_enhanced.py`
(lines 255-278): on inference success format the candidates directly
(`f"{chapter['timestamp']} {chapter['title']}"`); on failure (`None` or an
empty candidate list, both falsy) fall back to time-based chapters. -/
def enhanced_result (ai : Option (List (PyStr × PyStr))) (transcript : List Segment)
    (duration : ℚ) : Option (List PyStr) :=
  match ai with
  | some cs =>
    if cs.isEmpty then enhanced_fallback_chapters transcript duration
    else some (cs.map (fun c => c.1 ++ ' ' :: c.2))
  | none => enhanced_fallback_chapters transcript duration

/-- Embedding of `create_fallback_structured_chapters(transcript, structure)`
from `generate_structured_chapters.py`:
empty transcript returns `[]`; otherwise `duration = transcript[-1]['start']`,
`intro_end = min(duration*0.05, 120)`,
`closing_start = max(duration - 60, duration*0.95)`,
`question_length = (closing_start - intro_end) / questions`, one chapter
`"Q{i+1}: Topic {i+1}"` at `intro_end + i*question_length` for each `i`,
between an introduction at `00:00:00` and closing remarks at
`closing_start`.  `none` models the `ZeroDivisionError` for
`questions = 0`.  The literals `0.05` and `0.95` are written as the exact
rationals `5 / 100` and `95 / 100`. -/
def create_fallback_structured_chapters (transcript : List Segment) (questions : ℕ) :
    Option (List (PyStr × PyStr)) :=
  match transcript with
  | [] => some []
  | seg :: rest =>
    if questions = 0 then none
    else
      let duration := (rest.getLastD seg).start
      let intro_end := min (duration * (5 / 100)) 120
      let closing_start := max (duration - 60) (duration * (95 / 100))
      let question_length := (closing_start - intro_end) / ((questions : ℚ))
      some (((("00:00:00".data)), (("Introduction".data))) ::
        ((List.range questions).map (fun (i : ℕ) =>
          (format_time (intro_end + ((i : ℚ)) * question_length),
            'Q' :: natDigits (i + 1) ++ ((": Topic ".data)) ++ natDigits (i + 1))))
        ++ [(format_time closing_start, (("Closing Remarks".data)))])

/-- The structured fallback's introduction end `min(duration*0.05, 120)`. -/
def structured_intro_end (d : ℚ) : ℚ := min (d * (5 / 100)) 120

/-- The structured fallback's closing start `max(duration - 60, duration*0.95)`. -/
def structured_closing_start (d : ℚ) : ℚ := max (d - 60) (d * (95 / 100))

/-- The structured fallback's question slice width
`(closing_start - intro_end) / questions`. -/
def structured_qwidth (d : ℚ) (questions : ℕ) : ℚ :=
  (structured_closing_start d - structured_intro_end d) / ((questions : ℚ))

/-- The structured fallback's question title `f"Q{n}: Topic {n}"`. -/
def structured_qtitle (n : ℕ) : PyStr :=
  'Q' :: natDigits n ++ ((": Topic ".data)) ++ natDigits n

/-- Python slice `l[::step]` for `step ≥ 1`: keep indices `0, step, 2*step, …`.
`k` counts how many elements remain to be skipped before the next keep. -/
def sliceGo {α : Type} : List α → ℕ → ℕ → List α
  | [], _, _ => []
  | x :: xs, step, 0 => x :: sliceGo xs step (step - 1)
  | _ :: xs, step, k + 1 => sliceGo xs step k

/-- Python `l[::step]`. -/
def pyStepSlice {α : Type} (l : List α) (step : ℕ) : List α := sliceGo l step 0

/-- The sampler stride `step = max(1, total // sample_size)` used by
`analyze_transcript_with_ai` (and its siblings). -/
def sample_step (total sample_size : ℕ) : ℕ := max 1 (total / sample_size)

/-- The transcript sampler `sampled_entries = transcript[::step]` of
`analyze_transcript_with_ai` in `src/main_enhanced.py` (lines 81-91),
abstracted over the maximum sample size. -/
def sampled_entries (transcript : List Segment) (sample_size : ℕ) : List Segment :=
  pyStepSlice transcript (sample_step transcript.length sample_size)

/-- List-prefix test (Python slice comparison). -/
def isPrefixL : PyStr → PyStr → Bool
  | [], _ => true
  | _ :: _, [] => false
  | a :: as, b :: bs => a == b && isPrefixL as bs

/-- Python `needle in hay` substring test. -/
def containsSub (needle : PyStr) : PyStr → Bool
  | [] => needle.isEmpty
  | c :: rest => isPrefixL needle (c :: rest) || containsSub needle rest

/-- Python `s.split(sep)` for a multi-character separator (leftmost,
non-overlapping); fuelled scan, `|s| + 1` fuel always suffices. -/
def splitOnSubGo (sep : PyStr) : ℕ → PyStr → PyStr → List PyStr
  | 0, cur, rest => [cur.reverse ++ rest]
  | fuel + 1, cur, rest =>
    if isPrefixL sep rest && !sep.isEmpty then
      cur.reverse :: splitOnSubGo sep fuel [] (rest.drop sep.length)
    else
      match rest with
      | [] => [cur.reverse]
      | c :: rs => splitOnSubGo sep fuel (c :: cur) rs

/-- Python `s.split(sep)` (also `re.split` for a literal pattern). -/
def splitOnSub (sep s : PyStr) : List PyStr := splitOnSubGo sep (s.length + 1) [] s

/-- One pass of `re.sub(r'<[^>]+>', '', text)`: drop every `<…>` group with
at least one non-`>` character inside; fuelled scan. -/
def stripTagsGo : ℕ → PyStr → PyStr
  | 0, l => l
  | _ + 1, [] => []
  | fuel + 1, c :: rest =>
    if c == '<' then
      match rest.dropWhile (fun x => !(x == '>')) with
      | _ :: tail2 =>
        if (rest.takeWhile (fun x => !(x == '>'))).isEmpty then c :: stripTagsGo fuel rest
        else stripTagsGo fuel tail2
      | [] => c :: stripTagsGo fuel rest
    else c :: stripTagsGo fuel rest

/-- Python `re.sub(r'<[^>]+>', '', text)`. -/
def stripTags (l : PyStr) : PyStr := stripTagsGo l.length l

/-- The time parse inside `parse_vtt`: split on `':'`; with three fields
`h, m, s_ms` (or two fields `m, s_ms`) split `s_ms` on `'.'` into exactly
two parts and convert all fields with `int`.  Outer `none` models a raised
`ValueError`; `some none` models the `continue` taken for any other number
of `':'` fields. -/
def parse_vtt_time (s : PyStr) : Option (Option ℚ) :=
  match splitOnChar ':' s with
  | [h, m, s_ms] =>
    match splitOnChar '.' s_ms with
    | [sec, ms] =>
      match pyInt? h, pyInt? m, pyInt? sec, pyInt? ms with
      | some hv, some mv, some sv, some msv =>
        some (some (((hv : ℚ)) * 3600 + ((mv : ℚ)) * 60 + ((sv : ℚ)) + ((msv : ℚ)) / 1000))
      | _, _, _, _ => none
    | _ => none
  | [m, s_ms] =>
    match splitOnChar '.' s_ms with
    | [sec, ms] =>
      match pyInt? m, pyInt? sec, pyInt? ms with
      | some mv, some sv, some msv =>
        some (some (((mv : ℚ)) * 60 + ((sv : ℚ)) + ((msv : ℚ)) / 1000))
      | _, _, _ => none
    | _ => none
  | _ => some none

/-- One cue block of `parse_vtt`: valid when it has at least two lines and
the first contains `-->`; the start time is the part before `' --> '`.
Outer `none` models a raised exception, `some none` a skipped block. -/
def parse_cue_block (block : PyStr) : Option (Option Segment) :=
  match splitOnChar '\n' (pyStrip block) with
  | [] => some none
  | time_line :: text_lines =>
    if 2 ≤ (time_line :: text_lines).length ∧ containsSub (("-->".data)) time_line = true then
      match parse_vtt_time ((splitOnSub ((" --> ".data)) time_line).headD []) with
      | none => none
      | some none => some none
      | some (some secs) => some (some ⟨secs, stripTags (joinSpace text_lines)⟩)
    else some none

/-- The cue loop of `parse_vtt`: process blocks in order, skipping invalid
ones; a raised exception aborts the whole parse. -/
def parse_vtt_blocks : List PyStr → Option (List Segment)
  | [] => some []
  | b :: rest =>
    match parse_cue_block b with
    | none => none
    | some none => parse_vtt_blocks rest
    | some (some seg) => (parse_vtt_blocks rest).map (fun l => seg :: l)

/-- Embedding of `parse_vtt` (identical in `src/main_enhanced.py` and
`generate_structured_chapters.py`), applied to the file's content:
`cues = re.split(r'\n\n', content.strip())`, then the cue loop. -/
def parse_vtt (content : PyStr) : Option (List Segment) :=
  parse_vtt_blocks (splitOnSub (("\n\n".data)) (pyStrip content))

/-- A cue block that `parse_vtt` skips (rather than parses or raises on):
its first line lacks the `-->` separator or the block is a single line, or
the start-time field does not have exactly 2 or 3 `':'`-separated parts. -/
def vtt_skippable (block : PyStr) : Bool :=
  let lines := splitOnChar '\n' (pyStrip block)
  let tl := lines.headD []
  !(decide (2 ≤ lines.length) && containsSub (("-->".data)) tl) ||
    (let n := (splitOnChar ':' ((splitOnSub ((" --> ".data)) tl).headD [])).length
     !(n == 2 || n == 3))

/-- The transcript of the specification's worked scenario. -/
def exTranscript : List Segment :=
  [⟨0, (("intro".data))⟩, ⟨60, (("topic a".data))⟩, ⟨125, (("topic b".data))⟩,
    ⟨300, (("outro".data))⟩]

/-- The candidate list of the specification's worked scenario. -/
def exCandidates : List Candidate :=
  [⟨some (("00:01:10".data)), some (("Topic A".data))⟩,
    ⟨some (("00:01:10".data)), some (("Topic A Dup".data))⟩,
    ⟨some (("00:05:10".data)), some (("Outro".data))⟩]

/-- A two-segment transcript spanning ten minutes. -/
def twoSegTranscript : List Segment := [⟨0, (("a".data))⟩, ⟨600, (("b".data))⟩]

/-- A five-segment transcript with one segment per second. -/
def fiveSegTranscript : List Segment :=
  [⟨0, []⟩, ⟨1, []⟩, ⟨2, []⟩, ⟨3, []⟩, ⟨4, []⟩]

/-! Basic lemmas about the string and digit helpers. -/

theorem natDigitsGo_congr (n : ℕ) :
    ∀ f₁ f₂, n < f₁ → n < f₂ → natDigitsGo f₁ n = natDigitsGo f₂ n := by
  induction n using Nat.strong_induction_on with
  | _ n ih =>
    intro f₁ f₂ h₁ h₂
    match f₁, f₂ with
    | g₁ + 1, g₂ + 1 =>
      simp only [natDigitsGo]
      by_cases h10 : n < 10
      · simp [h10]
      · simp only [if_neg h10]
        rw [ih (n / 10) (by omega) g₁ g₂ (by omega) (by omega)]

theorem natDigits_unfold (n : ℕ) :
    natDigits n =
      if n < 10 then [Nat.digitChar n]
      else natDigits (n / 10) ++ [Nat.digitChar (n % 10)] := by
  show natDigitsGo (n + 1) n = _
  simp only [natDigitsGo]
  by_cases h10 : n < 10
  · simp [h10]
  · simp only [if_neg h10]
    rw [natDigitsGo_congr (n / 10) n (n / 10 + 1) (by omega) (by omega)]
    rfl

theorem digitVal_digitChar {d : ℕ} (h : d < 10) : digitVal (Nat.digitChar d) = d := by
  interval_cases d <;> decide

theorem digitChar_isDigit {d : ℕ} (h : d < 10) : (Nat.digitChar d).isDigit = true := by
  interval_cases d <;> decide

theorem natDigits_all_digit (n : ℕ) : ∀ c ∈ natDigits n, c.isDigit = true := by
  induction n using Nat.strong_induction_on with
  | _ n ih =>
    intro c hc
    rw [natDigits_unfold] at hc
    by_cases h10 : n < 10
    · rw [if_pos h10] at hc
      simp only [List.mem_singleton] at hc
      subst hc; exact digitChar_isDigit h10
    · rw [if_neg h10] at hc
      rcases List.mem_append.1 hc with h | h
      · exact ih (n / 10) (by omega) c h
      · simp only [List.mem_singleton] at h
        subst h; exact digitChar_isDigit (by omega)

theorem natDigits_ne_nil (n : ℕ) : natDigits n ≠ [] := by
  rw [natDigits_unfold]
  by_cases h10 : n < 10 <;> simp [h10]

theorem digitsVal_append_singleton (xs : List Char) (c : Char) :
    digitsVal (xs ++ [c]) = 10 * digitsVal xs + digitVal c := by
  simp [digitsVal, List.foldl_append]

theorem digitsVal_natDigits (n : ℕ) : digitsVal (natDigits n) = n := by
  induction n using Nat.strong_induction_on with
  | _ n ih =>
    rw [natDigits_unfold]
    by_cases h10 : n < 10
    · rw [if_pos h10]
      show 10 * 0 + digitVal (Nat.digitChar n) = n
      rw [digitVal_digitChar h10]
      omega
    · rw [if_neg h10, digitsVal_append_singleton, ih (n / 10) (by omega),
        digitVal_digitChar (show n % 10 < 10 by omega)]
      omega

theorem isDigit_not_pySpace {c : Char} (h : c.isDigit = true) : isPySpace c = false := by
  by_contra hc
  have hc' : isPySpace c = true := by
    cases he : isPySpace c
    · exact absurd he hc
    · rfl
  simp only [isPySpace, Bool.or_eq_true, beq_iff_eq] at hc'
  rcases hc' with ((((h1 | h1) | h1) | h1) | h1) | h1 <;> subst h1 <;>
    exact absurd h (by decide)

theorem dropWhile_noop {p : Char → Bool} :
    ∀ l : PyStr, (∀ c ∈ l, p c = false) → l.dropWhile p = l := by
  intro l h
  cases l with
  | nil => rfl
  | cons a t =>
    rw [List.dropWhile_cons, h a (List.mem_cons_self a t)]
    simp

theorem pyStrip_noop {l : PyStr} (h : ∀ c ∈ l, isPySpace c = false) : pyStrip l = l := by
  unfold pyStrip
  rw [dropWhile_noop l h, dropWhile_noop]
  · exact l.reverse_reverse
  · intro c hc
    exact h c (List.mem_reverse.1 hc)

theorem digitsVal_cons_zero (l : List Char) : digitsVal ('0' :: l) = digitsVal l := by
  show l.foldl _ (10 * 0 + digitVal '0') = l.foldl _ 0
  have h : 10 * 0 + digitVal '0' = 0 := by decide
  rw [h]

/-- Python `int` succeeds on any non-empty all-digit string and returns its
decimal value. -/
theorem pyInt?_digits {l : PyStr} (hne : l ≠ []) (hd : ∀ c ∈ l, c.isDigit = true) :
    pyInt? l = some ((digitsVal l : ℤ)) := by
  have hs : pyStrip l = l :=
    pyStrip_noop (fun c hc => isDigit_not_pySpace (hd c hc))
  rcases l with _ | ⟨c, rest⟩
  · exact absurd rfl hne
  have hcdig : c.isDigit = true := hd c (List.mem_cons_self _ _)
  have hplus : ¬((c :: rest).head? == some '+') = true := by
    simp only [List.head?_cons, Option.some.injEq, beq_iff_eq]
    intro h; subst h; exact absurd hcdig (by decide)
  have hminus : ¬((c :: rest).head? == some '-') = true := by
    simp only [List.head?_cons, Option.some.injEq, beq_iff_eq]
    intro h; subst h; exact absurd hcdig (by decide)
  have hok : okDigitsBody (c :: rest) = true := by
    have hall : (c :: rest).all (fun x => x.isDigit || x == '_') = true := by
      rw [List.all_eq_true]
      intro x hx
      rw [Bool.or_eq_true]
      exact Or.inl (hd x hx)
    have hlast : (c :: rest).getLast? = some ((c :: rest).getLast (by simp)) :=
      List.getLast?_eq_getLast _ _
    have hlastdig : ((c :: rest).getLast (by simp)).isDigit = true :=
      hd _ (List.getLast_mem _)
    have hnd : noDoubleUnderscore (c :: rest) = true := by
      clear hs hplus hminus hall hlast hlastdig hne
      induction rest generalizing c with
      | nil => rfl
      | cons b t ih =>
        have hb : b.isDigit = true := hd b (by simp)
        show (!(c == '_' && b == '_') && noDoubleUnderscore (b :: t)) = true
        rw [Bool.and_eq_true]
        constructor
        · have : ¬(c = '_') := by
            intro h; subst h
            exact absurd (hd '_' (by simp)) (by decide)
          simp [this]
        · exact ih b (fun x hx => hd x (List.mem_cons_of_mem c hx)) hb
    simp only [okDigitsBody, List.isEmpty_cons, Bool.not_false, Bool.and_eq_true,
      List.head?_cons, hlast]
    exact ⟨⟨⟨⟨trivial, hall⟩, hcdig⟩, hlastdig⟩, hnd⟩
  have hfilter : (c :: rest).filter Char.isDigit = c :: rest :=
    List.filter_eq_self.2 hd
  rw [pyInt?, hs, pyIntCore, if_neg hplus, if_neg hminus, pyIntBody, if_pos hok,
    hfilter]
  rw [if_neg (by simp), one_mul]

theorem intRepr_natCast (n : ℕ) : intRepr ((n : ℤ)) = natDigits n := by
  unfold intRepr
  rw [if_neg (by omega), Int.toNat_natCast]

theorem pad2_natCast (n : ℕ) :
    pad2 ((n : ℤ)) = natDigits n ∨ pad2 ((n : ℤ)) = '0' :: natDigits n := by
  unfold pad2
  rw [intRepr_natCast]
  by_cases h : (natDigits n).length < 2
  · exact Or.inr (by rw [if_pos h])
  · exact Or.inl (by rw [if_neg h])

theorem pad2_all_digit (n : ℕ) : ∀ c ∈ pad2 ((n : ℤ)), c.isDigit = true := by
  rcases pad2_natCast n with h | h <;> rw [h] <;> intro c hc
  · exact natDigits_all_digit n c hc
  · rcases List.mem_cons.1 hc with h1 | h1
    · subst h1; decide
    · exact natDigits_all_digit n c h1

theorem pad2_ne_nil (n : ℕ) : pad2 ((n : ℤ)) ≠ [] := by
  rcases pad2_natCast n with h | h <;> rw [h]
  · exact natDigits_ne_nil n
  · simp

theorem pyInt?_pad2 (n : ℕ) : pyInt? (pad2 ((n : ℤ))) = some ((n : ℤ)) := by
  rw [pyInt?_digits (pad2_ne_nil n) (pad2_all_digit n)]
  rcases pad2_natCast n with h | h <;> rw [h]
  · rw [digitsVal_natDigits]
  · rw [digitsVal_cons_zero, digitsVal_natDigits]

theorem isDigit_ne_colon {c : Char} (h : c.isDigit = true) : ¬(c = ':') := by
  intro hc; subst hc; exact absurd h (by decide)

theorem splitOnChar_ne_nil (sep : Char) (l : PyStr) : splitOnChar sep l ≠ [] := by
  cases l with
  | nil => simp [splitOnChar]
  | cons c rest =>
    simp only [splitOnChar]
    rcases h : splitOnChar sep rest with _ | ⟨a, t⟩
    · simp
    · by_cases hc : (c == sep) = true <;> simp [hc]

theorem splitOnChar_no_sep {sep : Char} :
    ∀ {l : PyStr}, (∀ c ∈ l, ¬(c = sep)) → splitOnChar sep l = [l] := by
  intro l
  induction l with
  | nil => intro _; rfl
  | cons c rest ih =>
    intro h
    have hrest := ih (fun x hx => h x (List.mem_cons_of_mem c hx))
    have hc : (c == sep) = false := by
      rw [beq_eq_false_iff_ne]
      exact h c (List.mem_cons_self _ _)
    simp [splitOnChar, hrest, hc]

theorem splitOnChar_sep_append {sep : Char} :
    ∀ {a : PyStr} (b : PyStr), (∀ c ∈ a, ¬(c = sep)) →
      splitOnChar sep (a ++ sep :: b) = a :: splitOnChar sep b := by
  intro a
  induction a with
  | nil =>
    intro b _
    show splitOnChar sep (sep :: b) = [] :: splitOnChar sep b
    simp only [splitOnChar]
    rcases h : splitOnChar sep b with _ | ⟨x, t⟩
    · exact absurd h (splitOnChar_ne_nil sep b)
    · simp
  | cons c a' ih =>
    intro b h
    have hrec := ih b (fun x hx => h x (List.mem_cons_of_mem c hx))
    have hc : (c == sep) = false := by
      rw [beq_eq_false_iff_ne]
      exact h c (List.mem_cons_self _ _)
    show splitOnChar sep (c :: (a' ++ sep :: b)) = (c :: a') :: splitOnChar sep b
    simp only [splitOnChar, hrec, hc]
    simp

/-! Floor arithmetic for `format_time`. -/

theorem floor_natAdd_div (k d : ℕ) {f : ℚ} (hf0 : 0 ≤ f) (hf1 : f < 1) :
    ⌊((k : ℚ) + f) / (d : ℚ)⌋ = ((k / d : ℕ) : ℤ) := by
  rcases Nat.eq_zero_or_pos d with hd | hd
  · subst hd
    simp
  · have hdQ : (0 : ℚ) < (d : ℚ) := by exact_mod_cast hd
    rw [Int.floor_eq_iff]
    constructor
    · rw [le_div_iff₀ hdQ]
      simp only [Int.cast_natCast]
      have h1 : ((k / d : ℕ) : ℚ) * (d : ℚ) ≤ (k : ℚ) := by
        exact_mod_cast Nat.div_mul_le_self k d
      linarith
    · rw [div_lt_iff₀ hdQ]
      simp only [Int.cast_natCast]
      have h1 : k + 1 ≤ d * (k / d) + d := by
        have := Nat.div_add_mod k d
        have := Nat.mod_lt k hd
        omega
      have h2 : (k : ℚ) + 1 ≤ (d : ℚ) * ((k / d : ℕ) : ℚ) + (d : ℚ) := by
        exact_mod_cast h1
      nlinarith

theorem pyFloorMod_natAdd (k d : ℕ) {f : ℚ} (hf0 : 0 ≤ f) (hf1 : f < 1) :
    pyFloorMod ((k : ℚ) + f) (d : ℚ) = ((k % d : ℕ) : ℚ) + f := by
  unfold pyFloorMod
  rw [floor_natAdd_div k d hf0 hf1]
  have h2 := congrArg (fun n : ℕ => (n : ℚ)) (Nat.div_add_mod k d)
  simp only [] at h2
  push_cast at h2
  simp only [Int.cast_natCast]
  linarith

/-- For any whole-second count `k` and fractional part `f ∈ [0, 1)`, the
rendered timestamp is determined by `k` alone, with the three components
`k / 3600`, `k % 3600 / 60` and `k % 60`. -/
theorem format_time_components (k : ℕ) {f : ℚ} (hf0 : 0 ≤ f) (hf1 : f < 1) :
    format_time ((k : ℚ) + f) =
      pad2 ((k / 3600 : ℕ)) ++ ':' :: pad2 ((k % 3600 / 60 : ℕ)) ++
        ':' :: pad2 ((k % 60 : ℕ)) := by
  unfold format_time
  have h1 : ⌊((k : ℚ) + f) / ((3600 : ℕ) : ℚ)⌋ = ((k / 3600 : ℕ) : ℤ) :=
    floor_natAdd_div k 3600 hf0 hf1
  have h2 : pyFloorMod ((k : ℚ) + f) ((3600 : ℕ) : ℚ) = ((k % 3600 : ℕ) : ℚ) + f :=
    pyFloorMod_natAdd k 3600 hf0 hf1
  have h3 : ⌊(((k % 3600 : ℕ) : ℚ) + f) / ((60 : ℕ) : ℚ)⌋ = ((k % 3600 / 60 : ℕ) : ℤ) :=
    floor_natAdd_div (k % 3600) 60 hf0 hf1
  have h4 : pyFloorMod ((k : ℚ) + f) ((60 : ℕ) : ℚ) = ((k % 60 : ℕ) : ℚ) + f :=
    pyFloorMod_natAdd k 60 hf0 hf1
  have h5 : ⌊(((k % 60 : ℕ) : ℚ) + f) / ((1 : ℕ) : ℚ)⌋ = ((k % 60 / 1 : ℕ) : ℤ) :=
    floor_natAdd_div (k % 60) 1 hf0 hf1
  rw [Nat.cast_ofNat] at h1 h2 h3 h4
  rw [Nat.cast_one, div_one, Nat.div_one] at h5
  rw [h1, h2, h3, h4, h5]

/-- The timestamp components of a non-negative rational, after splitting the
rendered string back at the colons. -/
theorem splitOnChar_format_aux (a b c : ℕ) :
    splitOnChar ':' (pad2 ((a : ℤ)) ++ ':' :: pad2 ((b : ℤ)) ++ ':' :: pad2 ((c : ℤ))) =
      [pad2 ((a : ℤ)), pad2 ((b : ℤ)), pad2 ((c : ℤ))] := by
  have hnc : ∀ n : ℕ, ∀ x ∈ pad2 ((n : ℤ)), ¬(x = ':') :=
    fun n x hx => isDigit_ne_colon (pad2_all_digit n x hx)
  have hshape : pad2 ((a : ℤ)) ++ ':' :: pad2 ((b : ℤ)) ++ ':' :: pad2 ((c : ℤ)) =
      pad2 ((a : ℤ)) ++ ':' :: (pad2 ((b : ℤ)) ++ ':' :: pad2 ((c : ℤ))) := by
    simp [List.cons_append]
  rw [hshape, splitOnChar_sep_append _ (hnc a), splitOnChar_sep_append _ (hnc b),
    splitOnChar_no_sep (hnc c)]

/-- Closed-form evaluation of `format_time` on a whole number of seconds:
the remaining computations are purely on naturals. -/
theorem format_time_eval (k : ℕ) :
    format_time ((k : ℚ)) =
      pad2 ((k / 3600 : ℕ)) ++ ':' :: pad2 ((k % 3600 / 60 : ℕ)) ++
        ':' :: pad2 ((k % 60 : ℕ)) := by
  have h := format_time_components k (f := 0) le_rfl zero_lt_one
  rw [add_zero] at h
  exact h

/-- C9: rendering a non-negative whole-second count with `format_time` yields
a zero-padded `HH:MM:SS` string with unbounded hours, and re-parsing that
string with the snapper's `h*3600 + m*60 + s` parse recovers the value for
every natural number of seconds; concretely, 90061 seconds (more than one
day) renders as `25:01:01`, so hours are not wrapped at 24. -/
theorem c9_format_time_roundtrip :
    (∀ s : ℕ, parse_to_t (format_time ((s : ℚ))) = (s : ℤ)) ∧
    format_time (((90061 : ℕ) : ℚ)) = ("25:01:01".data) := by
  constructor
  · intro s
    have h0 : ((s : ℚ)) = (s : ℚ) + 0 := by ring
    rw [h0, format_time_components s le_rfl zero_lt_one]
    simp only [parse_to_t, splitOnChar_format_aux, pyInt?_pad2]
    push_cast
    omega
  · have h := format_time_components 90061 (f := 0) le_rfl zero_lt_one
    rw [add_zero] at h
    rw [h]
    decide

/-- C10: for every non-negative rational number of seconds, `format_time`
renders the floor of the value — the rendering equals the rendering of
`⌊q⌋` — so any two times lying within the same whole second render to the
identical `HH:MM:SS` string. -/
theorem c10_format_time_truncates :
    (∀ q : ℚ, 0 ≤ q → format_time q = format_time ((⌊q⌋ : ℚ))) ∧
    (∀ q r : ℚ, 0 ≤ q → 0 ≤ r → ⌊q⌋ = ⌊r⌋ → format_time q = format_time r) := by
  have main : ∀ q : ℚ, 0 ≤ q → format_time q = format_time ((⌊q⌋ : ℚ)) := by
    intro q hq
    have h1 : ((⌊q⌋₊ : ℕ) : ℚ) ≤ q := Nat.floor_le hq
    have h2 : q < (⌊q⌋₊ : ℚ) + 1 := Nat.lt_floor_add_one q
    have hfloor : ((⌊q⌋ : ℤ) : ℚ) = ((⌊q⌋₊ : ℕ) : ℚ) := by
      rw [← Int.natCast_floor_eq_floor hq, Int.cast_natCast]
    have e1 := format_time_components ⌊q⌋₊ (f := q - (⌊q⌋₊ : ℕ)) (by linarith) (by linarith)
    rw [show ((⌊q⌋₊ : ℕ) : ℚ) + (q - (⌊q⌋₊ : ℕ)) = q by ring] at e1
    have e2 := format_time_components ⌊q⌋₊ (f := 0) le_rfl zero_lt_one
    rw [add_zero] at e2
    rw [e1, hfloor, e2]
  exact ⟨main, fun q r hq hr hqr => by rw [main q hq, main r hr, hqr]⟩

/-- Witness for C10 at the concrete input 3/2: one and a half seconds
renders exactly as its floor does. -/
theorem c10_witness :
    (0 : ℚ) ≤ 3 / 2 ∧ format_time ((3 / 2 : ℚ)) = format_time ((⌊(3 / 2 : ℚ)⌋ : ℚ)) :=
  ⟨by norm_num, c10_format_time_truncates.1 (3 / 2) (by norm_num)⟩

/-! Correctness of the binary search and the snapper. -/

theorem sorted_getD_le {a : List ℚ} (ha : a.Sorted (· ≤ ·)) {i j : ℕ} (hij : i ≤ j)
    (hj : j < a.length) : a.getD i 0 ≤ a.getD j 0 := by
  have hi : i < a.length := lt_of_le_of_lt hij hj
  rw [List.getD_eq_getElem?_getD, List.getD_eq_getElem?_getD,
    List.getElem?_eq_getElem hi, List.getElem?_eq_getElem hj]
  rcases eq_or_lt_of_le hij with h | h
  · subst h; simp
  · exact (List.pairwise_iff_getElem.1 ha) i j hi hj h

theorem bisectGo_spec (a : List ℚ) (ha : a.Sorted (· ≤ ·)) (x : ℚ) :
    ∀ fuel lo hi, hi - lo < fuel → lo ≤ hi → hi ≤ a.length →
      (∀ i, i < lo → a.getD i 0 ≤ x) →
      (∀ i, hi ≤ i → i < a.length → x < a.getD i 0) →
      lo ≤ bisectGo a x fuel lo hi ∧ bisectGo a x fuel lo hi ≤ hi ∧
        (∀ i, i < bisectGo a x fuel lo hi → a.getD i 0 ≤ x) ∧
        (∀ i, bisectGo a x fuel lo hi ≤ i → i < a.length → x < a.getD i 0) := by
  intro fuel
  induction fuel with
  | zero => intro lo hi h; omega
  | succ fuel ih =>
    intro lo hi hfuel hlohi hhi hlow hhigh
    by_cases hlt : lo < hi
    · have hmidlen : (lo + hi) / 2 < a.length := by omega
      by_cases hx : x < a.getD ((lo + hi) / 2) 0
      · have hrec := ih lo ((lo + hi) / 2) (by omega) (by omega) (by omega) hlow
          (fun i hmi hil => lt_of_lt_of_le hx (sorted_getD_le ha hmi hil))
        simp only [bisectGo, if_pos hlt, if_pos hx]
        exact ⟨hrec.1, le_trans hrec.2.1 (by omega), hrec.2.2⟩
      · have hle : a.getD ((lo + hi) / 2) 0 ≤ x := le_of_not_lt hx
        have hrec := ih ((lo + hi) / 2 + 1) hi (by omega) (by omega) hhi
          (fun i hi2 =>
            le_trans (sorted_getD_le ha (by omega : i ≤ (lo + hi) / 2) hmidlen) hle)
          hhigh
        simp only [bisectGo, if_pos hlt, if_neg hx]
        exact ⟨le_trans (by omega) hrec.1, hrec.2⟩
    · simp only [bisectGo, if_neg hlt]
      exact ⟨le_refl lo, by omega, hlow, fun i hli hil => hhigh i (by omega) hil⟩

/-- Full behaviour of one snap against a sorted, non-empty list of segment
starts: the call succeeds, the result is one of the starts, it is the
largest start that is ≤ the candidate time when such a start exists, and it
is the first start when the candidate time precedes all starts. -/
theorem snapTime_spec {starts : List ℚ} (hs : starts.Sorted (· ≤ ·)) (hne : starts ≠ [])
    (t : ℤ) :
    ∃ s, snapTime starts t = some s ∧ s ∈ starts ∧
      (∀ y ∈ starts, y ≤ ((t : ℚ)) → y ≤ s) ∧
      ((∃ y ∈ starts, y ≤ ((t : ℚ))) → s ≤ ((t : ℚ))) ∧
      (((t : ℚ)) < starts.getD 0 0 → starts.head? = some s) := by
  have hn : 0 < starts.length := List.length_pos.2 hne
  have hspec := bisectGo_spec starts hs ((t : ℚ)) (starts.length + 1) 0 starts.length
    (by omega) (by omega) le_rfl (by omega) (fun i h1 h2 => by omega)
  obtain ⟨h1, h2, h3, h4⟩ := hspec
  set r := bisectGo starts ((t : ℚ)) (starts.length + 1) 0 starts.length with hr
  have hbr : bisect_right starts ((t : ℚ)) = r := rfl
  rcases Nat.eq_zero_or_pos r with hr0 | hr1
  · have hsnap : snapTime starts t = starts[0]? := by
      simp only [snapTime, hbr, hr0]
      norm_num
    have h0len : 0 < starts.length := hn
    refine ⟨starts[0], by rw [hsnap, List.getElem?_eq_getElem h0len], List.getElem_mem _,
      ?_, ?_, ?_⟩
    · intro y hy hyt
      obtain ⟨j, hj, hyj⟩ := List.mem_iff_getElem.1 hy
      have := h4 j (by omega) hj
      rw [List.getD_eq_getElem?_getD, List.getElem?_eq_getElem hj] at this
      simp only [Option.getD_some] at this
      rw [← hyj] at hyt
      exact absurd hyt (not_le.2 this)
    · rintro ⟨y, hy, hyt⟩
      obtain ⟨j, hj, hyj⟩ := List.mem_iff_getElem.1 hy
      have := h4 j (by omega) hj
      rw [List.getD_eq_getElem?_getD, List.getElem?_eq_getElem hj] at this
      simp only [Option.getD_some] at this
      rw [← hyj] at hyt
      exact absurd hyt (not_le.2 this)
    · intro _
      rw [List.head?_eq_getElem?, List.getElem?_eq_getElem h0len]
  · have hidx : ((if ((r : ℤ) - 1 < 0) then (0 : ℤ) else (r : ℤ) - 1)).toNat = r - 1 := by
      rw [if_neg (by omega)]
      omega
    have hrlen : r - 1 < starts.length := by omega
    have hsnap : snapTime starts t = some starts[r - 1] := by
      simp only [snapTime, hbr, hidx]
      rw [List.getElem?_eq_getElem hrlen]
    have hsle : starts[r - 1] ≤ ((t : ℚ)) := by
      have := h3 (r - 1) (by omega)
      rw [List.getD_eq_getElem?_getD, List.getElem?_eq_getElem hrlen] at this
      simpa using this
    refine ⟨starts[r - 1], hsnap, List.getElem_mem _, ?_, fun _ => hsle, ?_⟩
    · intro y hy hyt
      obtain ⟨j, hj, hyj⟩ := List.mem_iff_getElem.1 hy
      by_cases hjr : j < r
      · have hmono := sorted_getD_le hs (show j ≤ r - 1 by omega) hrlen
        rw [List.getD_eq_getElem?_getD, List.getD_eq_getElem?_getD,
          List.getElem?_eq_getElem hj, List.getElem?_eq_getElem hrlen] at hmono
        simp only [Option.getD_some] at hmono
        rw [← hyj]
        exact hmono
      · have := h4 j (by omega) hj
        rw [List.getD_eq_getElem?_getD, List.getElem?_eq_getElem hj] at this
        simp only [Option.getD_some] at this
        rw [← hyj] at hyt
        exact absurd hyt (not_le.2 this)
    · intro hlt0
      have := h3 0 (by omega)
      rw [List.getD_eq_getElem?_getD] at this
      have h00 : starts[0]? = some starts[0] := List.getElem?_eq_getElem hn
      rw [h00] at this
      simp only [Option.getD_some] at this
      rw [List.getD_eq_getElem?_getD, h00] at hlt0
      simp only [Option.getD_some] at hlt0
      exact absurd this (not_le.2 hlt0)

/-- C1 (amended): for every chapter candidate, the snapper parses its
timestamp into seconds (a malformed timestamp parses to 0, embedded in
`parse_to_t`) and, against a non-empty transcript with sorted segment
starts, returns the start of the rightmost segment whose start is ≤ the
parsed time; if the parsed time precedes the first segment's start it
returns the first segment's start.  (On an empty transcript the code
raises an `IndexError` instead of returning 0 — see the counterexample.) -/
theorem c1_snap_rightmost {starts : List ℚ} (hs : starts.Sorted (· ≤ ·))
    (hne : starts ≠ []) (ts : PyStr) :
    ∃ s, snapTime starts (parse_to_t ts) = some s ∧ s ∈ starts ∧
      (starts.getD 0 0 ≤ ((parse_to_t ts : ℚ)) →
        s ≤ ((parse_to_t ts : ℚ)) ∧
          ∀ y ∈ starts, y ≤ ((parse_to_t ts : ℚ)) → y ≤ s) ∧
      (((parse_to_t ts : ℚ)) < starts.getD 0 0 → starts.head? = some s) := by
  obtain ⟨s, hsnap, hmem, hmax, hle, hhead⟩ := snapTime_spec hs hne (parse_to_t ts)
  refine ⟨s, hsnap, hmem, ?_, hhead⟩
  intro h0
  have h0mem : starts.getD 0 0 ∈ starts := by
    have hn : 0 < starts.length := List.length_pos.2 hne
    rw [List.getD_eq_getElem?_getD, List.getElem?_eq_getElem hn]
    exact List.getElem_mem _
  exact ⟨hle ⟨starts.getD 0 0, h0mem, h0⟩, hmax⟩

/-- Witness for C1: candidate `00:01:10` against starts 0, 60, 125, 300
(the theorem applied at a concrete sorted non-empty transcript). -/
theorem c1_witness :
    ∃ s, snapTime [(0 : ℚ), 60, 125, 300] (parse_to_t (("00:01:10".data))) = some s ∧
      s ∈ [(0 : ℚ), 60, 125, 300] ∧
      (List.getD [(0 : ℚ), 60, 125, 300] 0 0 ≤ ((parse_to_t (("00:01:10".data)) : ℚ)) →
        s ≤ ((parse_to_t (("00:01:10".data)) : ℚ)) ∧
          ∀ y ∈ [(0 : ℚ), 60, 125, 300],
            y ≤ ((parse_to_t (("00:01:10".data)) : ℚ)) → y ≤ s) ∧
      (((parse_to_t (("00:01:10".data)) : ℚ)) < List.getD [(0 : ℚ), 60, 125, 300] 0 0 →
        List.head? [(0 : ℚ), 60, 125, 300] = some s) :=
  c1_snap_rightmost (by decide) (by decide) (("00:01:10".data))

/-- Counterexample for C1 as stated: on an empty transcript the snapper
does not return time 0 — the `starts[idx]` access raises an `IndexError`
(modelled by `none`), so no chapter list at all is produced. -/
theorem c1_counterexample :
    snap_timestamps_to_transcript [⟨some (("00:00:05".data)), some (("X".data))⟩] [] =
        none ∧
      ¬(snap_timestamps_to_transcript [⟨some (("00:00:05".data)), some (("X".data))⟩] [] =
        some [((0 : ℚ), ("X".data))]) := by
  constructor
  · rfl
  · intro h
    have h0 : snap_timestamps_to_transcript
        [⟨some (("00:00:05".data)), some (("X".data))⟩] [] = none := rfl
    rw [h0] at h
    exact Option.noConfusion h

/-- C4 (amended): the time the snapper assigns to a candidate always equals
the start of some segment of a (non-empty, sorted) transcript, and is ≤ the
candidate's parsed timestamp value whenever some segment starts at or
before that value.  (When every segment starts after the candidate time the
snapped time exceeds the parsed time, and on an empty transcript the
snapper raises — see the counterexample.) -/
theorem c4_snap_le_parsed {starts : List ℚ} (hs : starts.Sorted (· ≤ ·))
    (hne : starts ≠ []) (ts : PyStr) :
    ∃ s, snapTime starts (parse_to_t ts) = some s ∧ s ∈ starts ∧
      ((∃ y ∈ starts, y ≤ ((parse_to_t ts : ℚ))) → s ≤ ((parse_to_t ts : ℚ))) := by
  obtain ⟨s, hsnap, hmem, _, hle, _⟩ := snapTime_spec hs hne (parse_to_t ts)
  exact ⟨s, hsnap, hmem, hle⟩

/-- Witness for C4: candidate `00:05:10` against starts 0, 60, 125, 300. -/
theorem c4_witness :
    ∃ s, snapTime [(0 : ℚ), 60, 125, 300] (parse_to_t (("00:05:10".data))) = some s ∧
      s ∈ [(0 : ℚ), 60, 125, 300] ∧
      ((∃ y ∈ [(0 : ℚ), 60, 125, 300], y ≤ ((parse_to_t (("00:05:10".data)) : ℚ))) →
        s ≤ ((parse_to_t (("00:05:10".data)) : ℚ))) :=
  c4_snap_le_parsed (by decide) (by decide) (("00:05:10".data))

/-- Counterexample for C4 as stated: a candidate at parsed time 5 against a
transcript whose only segment starts at 10 is snapped to 10, which is
greater than the parsed time. -/
theorem c4_counterexample :
    snap_timestamps_to_transcript [⟨some (("00:00:05".data)), some (("A".data))⟩]
        [⟨10, (("x".data))⟩] = some [((10 : ℚ), ("A".data))] ∧
      parse_to_t (("00:00:05".data)) = 5 ∧ ¬((10 : ℚ) ≤ ((5 : ℚ))) := by
  refine ⟨by decide, by decide, by norm_num⟩

/-! The full snapper pipeline: alignment, deduplication, sorting. -/

theorem snapAll_spec {starts : List ℚ} (hs : starts.Sorted (· ≤ ·)) (hne : starts ≠ [])
    (cs : List Candidate) :
    ∃ al, snapAll starts cs = some al ∧ ∀ p ∈ al, p.1 ∈ starts := by
  induction cs with
  | nil => exact ⟨[], rfl, by simp⟩
  | cons ch rest ih =>
    obtain ⟨al, hal, hmem⟩ := ih
    obtain ⟨s, hsnap, hsmem, _, _, _⟩ :=
      snapTime_spec hs hne (parse_to_t (ch.timestamp.getD (("00:00:00".data))))
    refine ⟨(s, normalize_title ch.title) :: al, ?_, ?_⟩
    · simp only [snapAll, hsnap, hal]
      rfl
    · intro p hp
      rcases List.mem_cons.1 hp with h | h
      · subst h; exact hsmem
      · exact hmem p h

theorem dedupFirst_subset :
    ∀ (l : List (ℚ × PyStr)) (seen : List ℚ), ∀ p ∈ dedupFirst seen l, p ∈ l := by
  intro l
  induction l with
  | nil => intro seen p hp; simp [dedupFirst] at hp
  | cons q rest ih =>
    intro seen p hp
    simp only [dedupFirst] at hp
    by_cases hq : q.1 ∈ seen
    · rw [if_pos hq] at hp
      exact List.mem_cons_of_mem q (ih seen p hp)
    · rw [if_neg hq] at hp
      rcases List.mem_cons.1 hp with h | h
      · subst h; exact List.mem_cons_self _ _
      · exact List.mem_cons_of_mem q (ih _ p h)

theorem dedupFirst_nodup :
    ∀ (l : List (ℚ × PyStr)) (seen : List ℚ),
      ((dedupFirst seen l).map Prod.fst).Nodup ∧
        ∀ t ∈ (dedupFirst seen l).map Prod.fst, t ∉ seen := by
  intro l
  induction l with
  | nil => intro seen; simp [dedupFirst]
  | cons q rest ih =>
    intro seen
    by_cases hq : q.1 ∈ seen
    · simp only [dedupFirst, if_pos hq]
      exact ih seen
    · obtain ⟨hnd, hnotin⟩ := ih (q.1 :: seen)
      simp only [dedupFirst, if_neg hq, List.map_cons, List.nodup_cons]
      refine ⟨⟨?_, hnd⟩, ?_⟩
      · intro hmem
        exact hnotin q.1 hmem (List.mem_cons_self _ _)
      · intro t ht
        rcases List.mem_cons.1 ht with h | h
        · subst h; exact hq
        · intro hts
          exact hnotin t h (List.mem_cons_of_mem _ hts)

theorem pairwise_lt_of_sorted_nodup {l : List (ℚ × PyStr)}
    (hsort : l.Pairwise byTime) (hnd : (l.map Prod.fst).Nodup) :
    l.Pairwise (fun p q => p.1 < q.1) := by
  have hne : l.Pairwise (fun p q => p.1 ≠ q.1) := List.pairwise_map.1 hnd
  exact (hsort.and hne).imp (fun h => lt_of_le_of_ne h.1 h.2)

/-- C2 (amended): every ChapterSet produced by the snapper on a non-empty
transcript with sorted segment starts has strictly increasing times with no
two chapters sharing a time, and every chapter time equals the start of
some segment of the source transcript.  (The fallback partitioners do not
satisfy this: the structured fallback emits slice-boundary times that are
not segment starts — see the counterexample — and the flat fallback can
repeat the same nearest segment.) -/
theorem c2_snapper_invariant (cs : List Candidate) (transcript : List Segment)
    (hs : (transcript.map Segment.start).Sorted (· ≤ ·)) (hne : transcript ≠ []) :
    ∃ l, snap_timestamps_to_transcript cs transcript = some l ∧
      l.Pairwise (fun p q => p.1 < q.1) ∧
      ∀ p ∈ l, p.1 ∈ transcript.map Segment.start := by
  have hne' : transcript.map Segment.start ≠ [] := by
    intro h
    exact hne (List.map_eq_nil_iff.1 h)
  obtain ⟨al, hal, hmem⟩ := snapAll_spec hs hne' cs
  refine ⟨List.insertionSort byTime (dedupFirst [] al), ?_, ?_, ?_⟩
  · simp only [snap_timestamps_to_transcript, hal]
    rfl
  · apply pairwise_lt_of_sorted_nodup (List.sorted_insertionSort byTime _)
    have hperm := List.perm_insertionSort byTime (dedupFirst [] al)
    rw [List.Perm.nodup_iff (hperm.map Prod.fst)]
    exact (dedupFirst_nodup al []).1
  · intro p hp
    have hperm := List.perm_insertionSort byTime (dedupFirst [] al)
    have hp' : p ∈ dedupFirst [] al := hperm.mem_iff.1 hp
    exact hmem p (dedupFirst_subset al [] p hp')

/-- Witness for C2: the specification's worked scenario (duplicate
candidates at `00:01:10` and one at `00:05:10` against starts
0, 60, 125, 300). -/
theorem c2_witness :
    ∃ l, snap_timestamps_to_transcript exCandidates exTranscript = some l ∧
      l.Pairwise (fun p q => p.1 < q.1) ∧
      ∀ p ∈ l, p.1 ∈ exTranscript.map Segment.start :=
  c2_snapper_invariant exCandidates exTranscript (by decide) (by decide)

/-- Concrete evaluation of the structured fallback on the two-segment
transcript with starts 0 and 600 and one question. -/
theorem structured_fallback_twoSeg_eval :
    create_fallback_structured_chapters twoSegTranscript 1 =
      some [((("00:00:00".data)), (("Introduction".data))),
        ((("00:00:30".data)), (("Q1: Topic 1".data))),
        ((("00:09:30".data)), (("Closing Remarks".data)))] := by
  simp only [twoSegTranscript, create_fallback_structured_chapters]
  norm_num [List.getLastD, List.range_succ]
  refine ⟨⟨?_, by decide⟩, ?_⟩
  · rw [show ((30 : ℚ)) = (((30 : ℕ) : ℚ)) by norm_num, format_time_eval]
    decide
  · rw [show ((570 : ℚ)) = (((570 : ℕ) : ℚ)) by norm_num, format_time_eval]
    decide

/-- Counterexample for C2 as stated: the structured fallback partitioner —
one of the ChapterSet producers named by the claim — emits the question
chapter at `00:00:30` for the transcript with segment starts 0 and 600;
the parsed time 30 is neither a segment start nor 0. -/
theorem c2_counterexample :
    create_fallback_structured_chapters twoSegTranscript 1 =
        some [((("00:00:00".data)), (("Introduction".data))),
          ((("00:00:30".data)), (("Q1: Topic 1".data))),
          ((("00:09:30".data)), (("Closing Remarks".data)))] ∧
      parse_to_t (("00:00:30".data)) = 30 ∧
      ((30 : ℚ)) ∉ twoSegTranscript.map Segment.start ∧ ((30 : ℚ)) ≠ 0 :=
  ⟨structured_fallback_twoSeg_eval, by decide, by decide, by norm_num⟩

/-! The structured fallback partitioner's layout. -/

/-- The literal list returned by the structured fallback on a non-empty
transcript with at least one question. -/
theorem structured_fallback_form (seg : Segment) (rest : List Segment) (k : ℕ) :
    create_fallback_structured_chapters (seg :: rest) (k + 1) =
      some (((("00:00:00".data)), (("Introduction".data))) ::
        ((List.range (k + 1)).map (fun (i : ℕ) =>
          (format_time (structured_intro_end ((rest.getLastD seg).start) +
              ((i : ℚ)) * structured_qwidth ((rest.getLastD seg).start) (k + 1)),
            structured_qtitle (i + 1))))
        ++ [(format_time (structured_closing_start ((rest.getLastD seg).start)),
          (("Closing Remarks".data)))]) := by
  simp only [create_fallback_structured_chapters]
  rw [if_neg (Nat.succ_ne_zero k)]
  rfl

/-- C7 (amended): for every non-empty transcript and `questionCount = k + 1`,
the fallback chapter set is an introduction at `00:00:00`, `k + 1` question
chapters titled `"Q<i>: Topic <i>"` at the start times of `k + 1`
equal-width slices of the middle span `[intro_end, closing_start)` with
`intro_end = min(5% of duration, 2 minutes)`, and a closing chapter at
`closing_start = max(duration - 60, 95% of duration)` — i.e. the closing
chapter spans the final `min(1 minute, 5% of duration)` of the video, not
the final `max(1 minute, 5% of duration)` stated by the claim. -/
theorem c7_structured_fallback_layout (seg : Segment) (rest : List Segment) (k : ℕ) :
    ∃ l, create_fallback_structured_chapters (seg :: rest) (k + 1) = some l ∧
      l.length = (k + 1) + 2 ∧
      l.head? = some ((("00:00:00".data)), (("Introduction".data))) ∧
      (∀ i, i < k + 1 →
        l[i + 1]? = some (format_time
            (structured_intro_end ((rest.getLastD seg).start) +
              ((i : ℚ)) * structured_qwidth ((rest.getLastD seg).start) (k + 1)),
          structured_qtitle (i + 1))) ∧
      l.getLast? = some (format_time (structured_closing_start ((rest.getLastD seg).start)),
        (("Closing Remarks".data))) := by
  have hform := structured_fallback_form seg rest k
  refine ⟨_, hform, ?_, rfl, ?_, ?_⟩
  · simp only [List.length_append, List.length_cons, List.length_map, List.length_range,
      List.length_nil]
  · intro i hi
    rw [List.getElem?_append_left
        (by simp only [List.length_cons, List.length_map, List.length_range]; omega),
      List.getElem?_cons_succ, List.getElem?_map, List.getElem?_range hi]
    rfl
  · exact List.getLast?_concat _

/-- Witness for C7: the theorem applied at the two-segment transcript with
starts 0 and 600 and a single question. -/
theorem c7_witness :
    ∃ l, create_fallback_structured_chapters (⟨0, (("a".data))⟩ :: [⟨600, (("b".data))⟩])
          (0 + 1) = some l ∧
      l.length = (0 + 1) + 2 ∧
      l.head? = some ((("00:00:00".data)), (("Introduction".data))) ∧
      (∀ (i : ℕ), i < 0 + 1 →
        l[i + 1]? = some (format_time
            (structured_intro_end (([(⟨600, (("b".data))⟩ : Segment)].getLastD ⟨0, (("a".data))⟩).start) +
              ((i : ℚ)) *
                structured_qwidth (([(⟨600, (("b".data))⟩ : Segment)].getLastD ⟨0, (("a".data))⟩).start)
                  (0 + 1)),
          structured_qtitle (i + 1))) ∧
      l.getLast? = some (format_time
          (structured_closing_start (([(⟨600, (("b".data))⟩ : Segment)].getLastD ⟨0, (("a".data))⟩).start)),
        (("Closing Remarks".data))) :=
  c7_structured_fallback_layout ⟨0, (("a".data))⟩ [⟨600, (("b".data))⟩] 0

/-- Counterexample for C7 as stated: for a 600-second video the claim puts
the closing chapter at `duration - max(60, 5%) = 540` (`00:09:00`), but the
code computes `closing_start = max(600 - 60, 600 * 0.95) = 570`
(`00:09:30`). -/
theorem c7_counterexample :
    create_fallback_structured_chapters twoSegTranscript 1 =
        some [((("00:00:00".data)), (("Introduction".data))),
          ((("00:00:30".data)), (("Q1: Topic 1".data))),
          ((("00:09:30".data)), (("Closing Remarks".data)))] ∧
      format_time ((600 : ℚ) - max 60 (600 * (5 / 100))) = ("00:09:00".data) ∧
      (("00:09:30".data) : PyStr) ≠ ("00:09:00".data) := by
  refine ⟨structured_fallback_twoSeg_eval, ?_, by decide⟩
  rw [show (600 : ℚ) - max 60 (600 * (5 / 100)) = (((540 : ℕ) : ℚ)) by norm_num,
    format_time_eval]
  decide

/-! Behaviour of the pipelines when inference fails. -/

/-- C3 (amended): in the enhanced pipeline (`src/main_enhanced.py`), whenever
the inference step fails entirely (a `None` result, or an empty candidate
list — both falsy), the deterministic time-based fallback is invoked and
the run still returns a non-empty chapter list with exactly
`min(100, max(10, ⌊duration/180⌋))` chapters; likewise the structured
generator falls back to a non-empty structured chapter set.  The basic
generator (`generate_youtube_chapters.py`), by contrast, produces no
chapter set at all when inference fails: it prints a failure message and
stops. -/
theorem c3_fallback_on_inference_failure :
    (∀ (seg : Segment) (rest : List Segment) (d : ℚ),
      ∃ l, enhanced_result none (seg :: rest) d = some l ∧
        l.length = min 100 (max 10 ((⌊d / 180⌋).toNat)) ∧ l ≠ []) ∧
    (∀ (seg : Segment) (rest : List Segment) (k : ℕ),
      ∃ l, create_fallback_structured_chapters (seg :: rest) (k + 1) = some l ∧ l ≠ []) ∧
    (∀ (transcript : List Segment) (count : ℕ), gyc_result none transcript count = none) := by
  refine ⟨?_, ?_, fun transcript count => rfl⟩
  · intro seg rest d
    refine ⟨_, rfl, ?_, by simp⟩
    simp only [List.length_cons, List.length_map, List.length_range']
    omega
  · intro seg rest k
    exact ⟨_, structured_fallback_form seg rest k, by simp⟩

/-- Witness for C3: the enhanced fallback at a concrete two-segment
transcript of duration 600 seconds. -/
theorem c3_witness :
    ∃ l, enhanced_result none (⟨0, (("a".data))⟩ :: [⟨600, (("b".data))⟩]) 600 = some l ∧
      l.length = min 100 (max 10 ((⌊(600 : ℚ) / 180⌋).toNat)) ∧ l ≠ [] :=
  c3_fallback_on_inference_failure.1 ⟨0, (("a".data))⟩ [⟨600, (("b".data))⟩] 600

/-- Counterexample for C3 as stated: in the basic generator, an inference
failure does not route to any fallback partitioner — the run ends with no
ChapterSet (for any transcript; here the four-segment example). -/
theorem c3_counterexample :
    gyc_result none exTranscript 3 = none ∧
      ∀ l, gyc_result none exTranscript 3 ≠ some l :=
  ⟨rfl, fun _ h => Option.noConfusion h⟩

/-! Title normalization. -/

theorem isWordChar_ne_space {c : Char} (h : isWordChar c = true) : ¬(c = ' ') := by
  intro hc
  subst hc
  exact absurd h (by decide)

theorem tokensGo_spec :
    ∀ (rest cur : List Char), (∀ c ∈ cur, isWordChar c = true) →
      ∀ tok ∈ tokensGo cur rest, tok ≠ [] ∧ ∀ c ∈ tok, isWordChar c = true := by
  intro rest
  induction rest with
  | nil =>
    intro cur hcur tok htok
    simp only [tokensGo] at htok
    by_cases hc : cur.isEmpty
    · rw [if_pos hc] at htok
      simp at htok
    · rw [if_neg hc] at htok
      simp only [List.mem_singleton] at htok
      subst htok
      refine ⟨?_, fun c hcm => hcur c (List.mem_reverse.1 hcm)⟩
      intro h
      rw [List.reverse_eq_nil_iff] at h
      subst h
      exact hc rfl
  | cons a rest ih =>
    intro cur hcur tok htok
    simp only [tokensGo] at htok
    by_cases ha : isWordChar a = true
    · rw [if_pos ha] at htok
      refine ih (a :: cur) ?_ tok htok
      intro c hc
      rcases List.mem_cons.1 hc with h | h
      · subst h; exact ha
      · exact hcur c h
    · rw [if_neg ha] at htok
      by_cases hc : cur.isEmpty
      · rw [if_pos hc] at htok
        exact ih [] (by simp) tok htok
      · rw [if_neg hc] at htok
        rcases List.mem_cons.1 htok with h | h
        · subst h
          refine ⟨?_, fun c hcm => hcur c (List.mem_reverse.1 hcm)⟩
          intro h
          rw [List.reverse_eq_nil_iff] at h
          subst h
          exact hc rfl
        · exact ih [] (by simp) tok h

theorem findTokens_spec (s : PyStr) :
    ∀ tok ∈ findTokens s, tok ≠ [] ∧ ∀ c ∈ tok, isWordChar c = true :=
  tokensGo_spec s [] (by simp)

theorem joinSpace_mem :
    ∀ (toks : List (List Char)) (c : Char), c ∈ joinSpace toks →
      c = ' ' ∨ ∃ tok ∈ toks, c ∈ tok := by
  intro toks
  induction toks with
  | nil => intro c hc; simp [joinSpace] at hc
  | cons t ts ih =>
    cases ts with
    | nil =>
      intro c hc
      exact Or.inr ⟨t, by simp, hc⟩
    | cons t' ts' =>
      intro c hc
      rcases List.mem_append.1 hc with h | h
      · exact Or.inr ⟨t, by simp, h⟩
      · rcases List.mem_cons.1 h with h' | h'
        · exact Or.inl h'
        · rcases ih c h' with h'' | ⟨tok, htok, hctok⟩
          · exact Or.inl h''
          · exact Or.inr ⟨tok, List.mem_cons_of_mem t htok, hctok⟩

theorem chain'_all_word {t : List Char} (h : ∀ c ∈ t, isWordChar c = true) :
    t.Chain' (fun a b => ¬(a = ' ' ∧ b = ' ')) := by
  induction t with
  | nil => simp
  | cons a t ih =>
    rw [List.chain'_cons']
    refine ⟨?_, ih (fun c hc => h c (List.mem_cons_of_mem a hc))⟩
    intro b _ hab
    exact isWordChar_ne_space (h a (List.mem_cons_self a t)) hab.1

theorem joinSpace_head? (t : List Char) (ts : List (List Char)) (ht : t ≠ []) :
    (joinSpace (t :: ts)).head? = t.head? := by
  cases ts with
  | nil => rfl
  | cons t' ts' =>
    show (t ++ ' ' :: joinSpace (t' :: ts')).head? = t.head?
    cases t with
    | nil => exact absurd rfl ht
    | cons a t'' => rfl

theorem chain'_joinSpace :
    ∀ toks : List (List Char),
      (∀ tok ∈ toks, tok ≠ [] ∧ ∀ c ∈ tok, isWordChar c = true) →
      (joinSpace toks).Chain' (fun a b => ¬(a = ' ' ∧ b = ' ')) := by
  intro toks
  induction toks with
  | nil => intro _; simp [joinSpace]
  | cons t ts ih =>
    intro h
    cases ts with
    | nil => exact chain'_all_word (h t (by simp)).2
    | cons t' ts' =>
      show (t ++ ' ' :: joinSpace (t' :: ts')).Chain' _
      rw [List.chain'_append]
      refine ⟨chain'_all_word (h t (by simp)).2, ?_, ?_⟩
      · rw [List.chain'_cons']
        refine ⟨?_, ih (fun tok htok => h tok (List.mem_cons_of_mem t htok))⟩
        intro b hb hab
        have ht' := h t' (by simp)
        rw [joinSpace_head? t' ts' ht'.1] at hb
        have hbmem : b ∈ t' := by
          cases t' with
          | nil => exact absurd rfl ht'.1
          | cons x xs =>
            simp only [List.head?_cons, Option.mem_def, Option.some.injEq] at hb
            subst hb
            exact List.mem_cons_self x xs
        exact isWordChar_ne_space (ht'.2 b hbmem) hab.2
      · intro x hx y hy hxy
        have hxt : x ∈ t := List.mem_of_mem_getLast? hx
        exact isWordChar_ne_space ((h t (by simp)).2 x hxt) hxy.1

theorem noDoubleSpace_of_chain' :
    ∀ {l : List Char}, l.Chain' (fun a b => ¬(a = ' ' ∧ b = ' ')) →
      noDoubleSpace l = true := by
  intro l
  induction l with
  | nil => intro _; rfl
  | cons a t ih =>
    cases t with
    | nil => intro _; rfl
    | cons b t' =>
      intro h
      rw [List.chain'_cons] at h
      show (!(a == ' ' && b == ' ') && noDoubleSpace (b :: t')) = true
      rw [Bool.and_eq_true]
      refine ⟨?_, ih h.2⟩
      by_cases ha : a = ' '
      · by_cases hb : b = ' '
        · exact absurd ⟨ha, hb⟩ h.1
        · simp [hb]
      · simp [ha]

theorem dropWhile_head?_false {p : Char → Bool} :
    ∀ {l : PyStr} {a : Char}, (l.dropWhile p).head? = some a → p a = false := by
  intro l
  induction l with
  | nil => intro a h; simp at h
  | cons b t ih =>
    intro a h
    rw [List.dropWhile_cons] at h
    by_cases hb : p b = true
    · rw [if_pos hb] at h
      exact ih h
    · rw [if_neg hb] at h
      simp only [List.head?_cons, Option.some.injEq] at h
      subst h
      exact Bool.eq_false_iff.2 hb

theorem pyStrip_length_le (l : PyStr) : (pyStrip l).length ≤ l.length := by
  unfold pyStrip
  calc ((l.dropWhile isPySpace).reverse.dropWhile isPySpace).reverse.length
      = ((l.dropWhile isPySpace).reverse.dropWhile isPySpace).length :=
        List.length_reverse _
    _ ≤ (l.dropWhile isPySpace).reverse.length :=
        ((List.dropWhile_sublist _).length_le)
    _ = (l.dropWhile isPySpace).length := List.length_reverse _
    _ ≤ l.length := ((List.dropWhile_sublist _).length_le)

theorem pyStrip_mem {l : PyStr} {c : Char} (h : c ∈ pyStrip l) : c ∈ l := by
  unfold pyStrip at h
  rw [List.mem_reverse] at h
  have h1 := (List.dropWhile_sublist (l := (l.dropWhile isPySpace).reverse) isPySpace).mem h
  rw [List.mem_reverse] at h1
  exact (List.dropWhile_sublist isPySpace).mem h1

theorem pyStrip_chain' {l : PyStr}
    (h : l.Chain' (fun a b => ¬(a = ' ' ∧ b = ' '))) :
    (pyStrip l).Chain' (fun a b => ¬(a = ' ' ∧ b = ' ')) := by
  have hsym : ∀ (a b : Char), ¬(a = ' ' ∧ b = ' ') → ¬(b = ' ' ∧ a = ' ') :=
    fun a b hab ⟨x, y⟩ => hab ⟨y, x⟩
  unfold pyStrip
  have h1 := h.suffix (List.dropWhile_suffix isPySpace)
  have h2 : ((l.dropWhile isPySpace).reverse).Chain' (fun a b => ¬(a = ' ' ∧ b = ' ')) :=
    List.chain'_reverse.2 (h1.imp hsym)
  have h3 := h2.suffix (List.dropWhile_suffix isPySpace)
  exact List.chain'_reverse.2 (h3.imp hsym)

theorem pyStrip_head?_false {l : PyStr} {a : Char} (h : (pyStrip l).head? = some a) :
    isPySpace a = false := by
  unfold pyStrip at h
  set B := l.dropWhile isPySpace with hB
  set C := B.reverse.dropWhile isPySpace with hC
  have hdec : B = C.reverse ++ (B.reverse.takeWhile isPySpace).reverse := by
    calc B = B.reverse.reverse := (List.reverse_reverse B).symm
      _ = (B.reverse.takeWhile isPySpace ++ C).reverse := by
          rw [List.takeWhile_append_dropWhile]
      _ = C.reverse ++ (B.reverse.takeWhile isPySpace).reverse :=
          List.reverse_append _ _
  rcases hrev : C.reverse with _ | ⟨x, xs⟩
  · rw [hrev] at h
    simp at h
  · rw [hrev] at h
    simp only [List.head?_cons, Option.some.injEq] at h
    have hBhead : B.head? = some x := by
      rw [hdec, hrev]
      rfl
    rw [← h]
    exact dropWhile_head?_false hBhead

theorem pyStrip_getLast?_false {l : PyStr} {a : Char}
    (h : (pyStrip l).getLast? = some a) : isPySpace a = false := by
  unfold pyStrip at h
  rw [List.getLast?_reverse] at h
  exact dropWhile_head?_false h

/-- C5 (amended): for every candidate title, the snapper's normalization
keeps only word tokens made of (ASCII) alphanumerics, apostrophes and
hyphens, rejoins them with single spaces (no two adjacent spaces remain),
truncates the result to at most 120 characters and trims surrounding
whitespace; a candidate whose title *field is missing* receives the
placeholder "Chapter", while a candidate whose title is the empty string
normalizes to the empty string, not to "Chapter". -/
theorem c5_normalize_title (t : Option PyStr) :
    (normalize_title t).length ≤ 120 ∧
      (normalize_title t).all wordOrSpace = true ∧
      noDoubleSpace (normalize_title t) = true ∧
      (normalize_title t).head? ≠ some ' ' ∧
      (normalize_title t).getLast? ≠ some ' ' ∧
      normalize_title none = ("Chapter".data) ∧
      normalize_title (some []) = [] := by
  have htoks := findTokens_spec (t.getD (("Chapter".data)))
  refine ⟨?_, ?_, ?_, ?_, ?_, by decide, rfl⟩
  · calc (normalize_title t).length
        ≤ ((joinSpace (findTokens (t.getD (("Chapter".data))))).take 120).length :=
          pyStrip_length_le _
      _ ≤ 120 := by
          rw [List.length_take]
          exact min_le_left _ _
  · rw [List.all_eq_true]
    intro c hc
    have hc1 := pyStrip_mem hc
    have hc2 := List.mem_of_mem_take hc1
    rcases joinSpace_mem _ c hc2 with h | ⟨tok, htok, hctok⟩
    · subst h
      rfl
    · have := (htoks tok htok).2 c hctok
      simp [wordOrSpace, this]
  · exact noDoubleSpace_of_chain' (pyStrip_chain' ((chain'_joinSpace _ htoks).take 120))
  · intro h
    have := pyStrip_head?_false h
    simp [isPySpace] at this
  · intro h
    have := pyStrip_getLast?_false h
    simp [isPySpace] at this

/-- Witness for C5: the normalization properties at a concrete messy
title. -/
theorem c5_witness :
    (normalize_title (some (("  Topic   A!!  ".data)))).length ≤ 120 ∧
      (normalize_title (some (("  Topic   A!!  ".data)))).all wordOrSpace = true ∧
      noDoubleSpace (normalize_title (some (("  Topic   A!!  ".data)))) = true ∧
      (normalize_title (some (("  Topic   A!!  ".data)))).head? ≠ some ' ' ∧
      (normalize_title (some (("  Topic   A!!  ".data)))).getLast? ≠ some ' ' ∧
      normalize_title none = ("Chapter".data) ∧
      normalize_title (some []) = [] :=
  c5_normalize_title (some (("  Topic   A!!  ".data)))

/-- Counterexample for C5 as stated: a candidate whose title is present but
empty does not receive the placeholder "Chapter" — it normalizes to the
empty string (`dict.get` substitutes the default only for a missing key). -/
theorem c5_counterexample :
    normalize_title (some []) = [] ∧ normalize_title (some []) ≠ ("Chapter".data) :=
  ⟨rfl, by decide⟩

/-! The transcript sampler. -/

theorem sliceGo_sublist {α : Type} :
    ∀ (l : List α) (step k : ℕ), List.Sublist (sliceGo l step k) l := by
  intro l
  induction l with
  | nil => intro step k; simp [sliceGo]
  | cons x xs ih =>
    intro step k
    cases k with
    | zero => exact (ih step (step - 1)).cons₂ x
    | succ k' => exact (ih step k').cons x

theorem sliceGo_length {α : Type} :
    ∀ (l : List α) (step k : ℕ), 1 ≤ step → k < step →
      (sliceGo l step k).length = (l.length + (step - 1 - k)) / step := by
  intro l
  induction l with
  | nil =>
    intro step k hs hk
    show (0 : ℕ) = (0 + (step - 1 - k)) / step
    rw [Nat.zero_add, Nat.div_eq_of_lt (by omega)]
  | cons x xs ih =>
    intro step k hs hk
    cases k with
    | zero =>
      show (x :: sliceGo xs step (step - 1)).length = _
      rw [List.length_cons, ih step (step - 1) hs (by omega)]
      have h1 : xs.length + (step - 1 - (step - 1)) = xs.length := by omega
      have h2 : (x :: xs).length + (step - 1 - 0) = xs.length + step := by
        rw [List.length_cons]; omega
      rw [h1, h2, Nat.add_div_right _ (by omega)]
    | succ k' =>
      show (sliceGo xs step k').length = _
      rw [ih step k' hs (by omega)]
      congr 1
      rw [List.length_cons]
      omega

/-- C8 (amended): for every non-empty transcript and maximum sample size
`K ≥ 1`, the sampler retains exactly every stride-th segment starting at
index 0 with `stride = max(1, total // K)`: its output is an
order-preserving subsequence of the transcript that always includes the
first segment, of length `⌈total / stride⌉` — which can exceed `K` when
`K` does not divide the total (see the counterexample), so "at most K
segments" does not hold. -/
theorem c8_sampler (seg : Segment) (rest : List Segment) (K : ℕ) (_hK : 1 ≤ K) :
    List.Sublist (sampled_entries (seg :: rest) K) (seg :: rest) ∧
      (sampled_entries (seg :: rest) K).head? = some seg ∧
      (sampled_entries (seg :: rest) K).length =
        ((seg :: rest).length + (sample_step (seg :: rest).length K - 1)) /
          sample_step (seg :: rest).length K := by
  refine ⟨sliceGo_sublist _ _ _, rfl, ?_⟩
  show (sliceGo (seg :: rest) (sample_step (seg :: rest).length K) 0).length = _
  have h1 : 1 ≤ sample_step (seg :: rest).length K := by
    unfold sample_step
    exact le_max_left _ _
  rw [sliceGo_length (seg :: rest) (sample_step (seg :: rest).length K) 0 h1 h1]
  congr 1

/-- Witness for C8: the five-segment transcript sampled with `K = 2`. -/
theorem c8_witness :
    (1 : ℕ) ≤ 2 ∧
      (List.Sublist (sampled_entries fiveSegTranscript 2) fiveSegTranscript ∧
        (sampled_entries fiveSegTranscript 2).head? = some ⟨0, []⟩ ∧
        (sampled_entries fiveSegTranscript 2).length =
          (fiveSegTranscript.length + (sample_step fiveSegTranscript.length 2 - 1)) /
            sample_step fiveSegTranscript.length 2) :=
  ⟨by decide, c8_sampler ⟨0, []⟩ [⟨1, []⟩, ⟨2, []⟩, ⟨3, []⟩, ⟨4, []⟩] 2 (by decide)⟩

/-- Counterexample for C8 as stated: five segments sampled with `K = 2`
give stride `max(1, 5 // 2) = 2` and hence 3 retained segments, more than
`K = 2`. -/
theorem c8_counterexample :
    (sampled_entries fiveSegTranscript 2).length = 3 ∧
      ¬((sampled_entries fiveSegTranscript 2).length ≤ 2) :=
  ⟨by decide, by decide⟩

/-! The VTT cue parse: which malformed blocks are skipped. -/

theorem parse_vtt_time_skip {s : PyStr}
    (h2 : (splitOnChar ':' s).length ≠ 2) (h3 : (splitOnChar ':' s).length ≠ 3) :
    parse_vtt_time s = some none := by
  rcases hP : splitOnChar ':' s with _ | ⟨a, L1⟩
  · simp only [parse_vtt_time, hP]
  rcases L1 with _ | ⟨b, L2⟩
  · simp only [parse_vtt_time, hP]
  rcases L2 with _ | ⟨c, L3⟩
  · rw [hP] at h2
    simp at h2
  rcases L3 with _ | ⟨d, L4⟩
  · rw [hP] at h3
    simp at h3
  · simp only [parse_vtt_time, hP]

theorem parse_cue_block_of_skippable {b : PyStr} (h : vtt_skippable b = true) :
    parse_cue_block b = some none := by
  rcases hL : splitOnChar '\n' (pyStrip b) with _ | ⟨time_line, text_lines⟩
  · simp only [parse_cue_block, hL]
  · simp only [vtt_skippable, hL, List.headD_cons] at h
    rw [Bool.or_eq_true] at h
    by_cases hcond : 2 ≤ (time_line :: text_lines).length ∧
        containsSub (("-->".data)) time_line = true
    · have hn : ((splitOnChar ':'
            ((splitOnSub ((" --> ".data)) time_line).headD [])).length == 2 ||
          (splitOnChar ':'
            ((splitOnSub ((" --> ".data)) time_line).headD [])).length == 3) = false := by
        rcases h with h | h
        · exfalso
          rw [Bool.not_eq_true', Bool.and_eq_false_iff] at h
          rcases h with h | h
          · rw [decide_eq_false_iff_not] at h
            exact h hcond.1
          · rw [h] at hcond
            exact Bool.noConfusion hcond.2
        · rwa [Bool.not_eq_true'] at h
      rw [Bool.or_eq_false_iff] at hn
      have h2 := beq_eq_false_iff_ne.1 hn.1
      have h3 := beq_eq_false_iff_ne.1 hn.2
      simp only [parse_cue_block, hL, if_pos hcond, parse_vtt_time_skip h2 h3]
    · simp only [parse_cue_block, hL, if_neg hcond]

/-- C6 (amended): the transcript parse never raises on a cue block whose
first line lacks the time-range separator (or that has a single line), nor
on one whose start-time field does not have exactly 2 or 3 colon-separated
parts — such blocks are skipped and parsing continues, and if every block
is of that kind the parse returns an empty transcript.  (A block with the
separator and the right number of colon parts but malformed components —
for example a seconds field with no `.` fraction — raises a `ValueError`
that aborts the whole parse: see the counterexample, so "never raises for
malformed individual cues" does not hold in general.) -/
theorem c6_vtt_skips_invalid_blocks :
    (∀ (b : PyStr) (rest : List PyStr), vtt_skippable b = true →
      parse_vtt_blocks (b :: rest) = parse_vtt_blocks rest) ∧
    (∀ bs : List PyStr, (∀ b ∈ bs, vtt_skippable b = true) →
      parse_vtt_blocks bs = some []) := by
  constructor
  · intro b rest hb
    simp only [parse_vtt_blocks, parse_cue_block_of_skippable hb]
  · intro bs
    induction bs with
    | nil => intro _; rfl
    | cons b rest ih =>
      intro hbs
      simp only [parse_vtt_blocks,
        parse_cue_block_of_skippable (hbs b (List.mem_cons_self b rest))]
      exact ih (fun x hx => hbs x (List.mem_cons_of_mem b hx))

/-- Witness for C6: a block without any `-->` separator is skipped and an
all-skippable block list parses to the empty transcript. -/
theorem c6_witness :
    vtt_skippable (("no separator here".data)) = true ∧
      parse_vtt_blocks ((("no separator here".data)) :: []) = parse_vtt_blocks [] :=
  ⟨by decide, c6_vtt_skips_invalid_blocks.1 (("no separator here".data)) [] (by decide)⟩

/-- Counterexample for C6 as stated: the cue
`00:00:01 --> 00:00:02 / hello` is individually malformed (its seconds
field has no `.mmm` fraction), yet the parser does not skip it — the
unpacking of `s_ms.split('.')` raises a `ValueError` and the whole parse
aborts with no transcript at all. -/
theorem c6_counterexample :
    parse_vtt (("00:00:01 --> 00:00:02\nhello".data)) = none ∧
      ∀ l, parse_vtt (("00:00:01 --> 00:00:02\nhello".data)) ≠ some l := by
  have h0 : parse_vtt (("00:00:01 --> 00:00:02\nhello".data)) = none := by decide
  refine ⟨h0, fun l h => ?_⟩
  rw [h0] at h
  exact Option.noConfusion h

end ChapterGen
